import Mathlib

set_option maxRecDepth 100000

/-!
Verification development for the MA60 monitor (src/main.go).

The program polls daily candles for every USDT symbol, detects crossings of
the closing price over/under the 60-day moving average, keeps a per-symbol
state map persisted as JSON, and renders a four-section report.

Modelling conventions:
* Go float64 prices are modelled over ℚ; the claims under study are order
  and field-arithmetic statements, which ℚ states faithfully.
* A candle close is stored by the source as a string and read with
  strconv.ParseFloat whose error is discarded (a failed parse leaves the
  value 0).  We model a close as the parse result: some q for a string that
  parses to q, none for a string whose parse fails; reading it yields the
  parsed value or 0, exactly as the source does.
* The Binance client and the symbol listing are external collaborators; a
  fetch is a function String → Option (List Kline) where none models a
  non-nil error, and the symbol listing is an Option (List String).
* The Go map map[string]TrackedAsset is modelled as an association list with
  insert-or-overwrite semantics.
* The JSON serialisation of the state file is modelled at the level of the
  JSON tree (objects with named fields, strings, numbers); printing and
  re-parsing the concrete text is the encoding/json library's concern.
-/

/-- One monitored symbol's state; mirrors the Go struct TrackedAsset with
fields Symbol, Status ("breakout" or "breakdown"), EventPrice, EventDate. -/
structure TrackedAsset where
  symbol : String
  status : String
  eventPrice : ℚ
  eventDate : String
  deriving DecidableEq, Repr

/-- The in-memory state map trackedAssets : map[string]TrackedAsset,
modelled as an association list from symbol to asset. -/
abbrev StateMap := List (String × TrackedAsset)

/-- Lookup in the state map: the Go read trackedAssets[s]. -/
def findAsset : StateMap → String → Option TrackedAsset
  | [], _ => none
  | (k, v) :: rest, s => if k = s then some v else findAsset rest s

/-- Write trackedAssets[s] = a: overwrite the entry for s if present,
otherwise add one. -/
def insertAsset : StateMap → String → TrackedAsset → StateMap
  | [], s, a => [(s, a)]
  | (k, v) :: rest, s, a =>
      if k = s then (s, a) :: rest else (k, v) :: insertAsset rest s a

/-- A daily candle; close is the ParseFloat result of the Close string
(none when the parse fails). -/
structure Kline where
  close : Option ℚ
  deriving DecidableEq, Repr, Inhabited

/-- Reading a candle's close the way the source does:
p, _ := strconv.ParseFloat(k.Close, 64) — a failed parse yields 0. -/
def parseClose (k : Kline) : ℚ := k.close.getD 0

/-- The source's MA60: sum the parsed closes of klines[0..59] and divide
by 60 (the latest candle, index 60, is excluded). -/
def ma60 (klines : List Kline) : ℚ := ((klines.take 60).map parseClose).sum / 60

/-- previousClose: parsed close of klines[59]. -/
def previousClose (klines : List Kline) : ℚ := parseClose (klines.getD 59 default)

/-- latestClose: parsed close of klines[60]. -/
def latestClose (klines : List Kline) : ℚ := parseClose (klines.getD 60 default)

/-- Left-pad a digit string with zeros to width n. -/
def padZeros (s : String) (n : Nat) : String :=
  String.mk (List.replicate (n - s.length) '0') ++ s

/-- Fixed-point rendering of a nonnegative rational with prec digits after
the decimal point, rounding the scaled value to the nearest integer; models
fmt's %f / %.2f on the exactly-representable values the claims use. -/
def formatFixedOfNonneg (prec : Nat) (q : ℚ) : String :=
  let n := (Rat.floor (q * (10 : ℚ) ^ prec + 1 / 2)).toNat
  let ip := n / 10 ^ prec
  let fp := n % 10 ^ prec
  if prec = 0 then toString ip else toString ip ++ "." ++ padZeros (toString fp) prec

/-- Fixed-point rendering of a rational, with a leading minus sign for
negative values. -/
def formatFixed (prec : Nat) (q : ℚ) : String :=
  if q < 0 then "-" ++ formatFixedOfNonneg prec (-q) else formatFixedOfNonneg prec q

/-- Daily-breakout report line: fmt.Sprintf of the symbol and %f latest close. -/
def breakoutReport (s : String) (price : ℚ) : String :=
  s ++ " (突破价: " ++ formatFixed 6 price ++ ")"

/-- Daily-breakdown report line. -/
def breakdownReport (s : String) (price : ℚ) : String :=
  s ++ " (跌破价: " ++ formatFixed 6 price ++ ")"

/-- Tracked-gain report line: gain = (latest − eventPrice) / eventPrice × 100,
rendered with %.2f. -/
def gainReport (s : String) (eventPrice price : ℚ) : String :=
  s ++ " (从 " ++ formatFixed 6 eventPrice ++ " 至今涨幅: " ++
    formatFixed 2 ((price - eventPrice) / eventPrice * 100) ++ "%)"

/-- Tracked-loss report line: loss = (eventPrice − latest) / eventPrice × 100,
rendered with %.2f. -/
def lossReport (s : String) (eventPrice price : ℚ) : String :=
  s ++ " (从 " ++ formatFixed 6 eventPrice ++ " 至今跌幅: " ++
    formatFixed 2 ((eventPrice - price) / eventPrice * 100) ++ "%)"

/-- The four report slices built by trackAndAnalyze together with the state
map it mutates. -/
structure AnalyzeState where
  dailyBreakouts : List String
  dailyBreakdowns : List String
  trackedGains : List String
  trackedLosses : List String
  trackedAssets : StateMap
  deriving DecidableEq, Repr

/-- The body of the per-symbol loop of trackAndAnalyze: skip on fetch error
or short history; otherwise classify a new breakout (latest > MA60 and
previous ≤ MA60), a new breakdown (latest < MA60 and previous ≥ MA60), or
fall through to the tracking of an existing entry. -/
def processSymbol (today : String) (res : Option (List Kline)) (s : String)
    (acc : AnalyzeState) : AnalyzeState :=
  match res with
  | none => acc
  | some klines =>
    if klines.length < 61 then acc
    else
      if ma60 klines < latestClose klines ∧ previousClose klines ≤ ma60 klines then
        { acc with
          dailyBreakouts := acc.dailyBreakouts ++ [breakoutReport s (latestClose klines)],
          trackedAssets := insertAsset acc.trackedAssets s
            ⟨s, "breakout", latestClose klines, today⟩ }
      else if latestClose klines < ma60 klines ∧ ma60 klines ≤ previousClose klines then
        { acc with
          dailyBreakdowns := acc.dailyBreakdowns ++ [breakdownReport s (latestClose klines)],
          trackedAssets := insertAsset acc.trackedAssets s
            ⟨s, "breakdown", latestClose klines, today⟩ }
      else
        match findAsset acc.trackedAssets s with
        | none => acc
        | some asset =>
          let acc1 :=
            if asset.status = "breakout" ∧ ma60 klines < latestClose klines then
              { acc with trackedGains :=
                  acc.trackedGains ++ [gainReport s asset.eventPrice (latestClose klines)] }
            else acc
          if asset.status = "breakdown" ∧ latestClose klines < ma60 klines then
            { acc1 with trackedLosses :=
                acc1.trackedLosses ++ [lossReport s asset.eventPrice (latestClose klines)] }
          else acc1

/-- One iteration of the symbol loop. -/
def analyzeStep (today : String) (fetch : String → Option (List Kline))
    (acc : AnalyzeState) (s : String) : AnalyzeState :=
  processSymbol today (fetch s) s acc

/-- trackAndAnalyze: on a symbol-listing error return the four empty slices
and leave the state untouched; otherwise run the per-symbol loop over all
symbols starting from the loaded state. -/
def trackAndAnalyze (today : String) (fetch : String → Option (List Kline))
    (symbolsRes : Option (List String)) (st : StateMap) : AnalyzeState :=
  match symbolsRes with
  | none => ⟨[], [], [], [], st⟩
  | some symbols => symbols.foldl (analyzeStep today fetch) ⟨[], [], [], [], st⟩

/-- The daily-breakout report this symbol contributes (if any): the
classification of the new-breakout branch as a function of the fetch
result alone. -/
def breakoutEntry (res : Option (List Kline)) (s : String) : Option String :=
  match res with
  | none => none
  | some ks =>
    if ks.length < 61 then none
    else if ma60 ks < latestClose ks ∧ previousClose ks ≤ ma60 ks then
      some (breakoutReport s (latestClose ks))
    else none

/-- The daily-breakdown report this symbol contributes (if any). -/
def breakdownEntry (res : Option (List Kline)) (s : String) : Option String :=
  match res with
  | none => none
  | some ks =>
    if ks.length < 61 then none
    else if ma60 ks < latestClose ks ∧ previousClose ks ≤ ma60 ks then none
    else if latestClose ks < ma60 ks ∧ ma60 ks ≤ previousClose ks then
      some (breakdownReport s (latestClose ks))
    else none

/-- The tracked-gain report this symbol contributes (if any), as a function
of the state map and the fetch result. -/
def gainEntry (st : StateMap) (res : Option (List Kline)) (s : String) : Option String :=
  match res with
  | none => none
  | some ks =>
    if ks.length < 61 then none
    else if ma60 ks < latestClose ks ∧ previousClose ks ≤ ma60 ks then none
    else if latestClose ks < ma60 ks ∧ ma60 ks ≤ previousClose ks then none
    else
      match findAsset st s with
      | none => none
      | some a =>
        if a.status = "breakout" ∧ ma60 ks < latestClose ks then
          some (gainReport s a.eventPrice (latestClose ks))
        else none

/-- The tracked-loss report this symbol contributes (if any). -/
def lossEntry (st : StateMap) (res : Option (List Kline)) (s : String) : Option String :=
  match res with
  | none => none
  | some ks =>
    if ks.length < 61 then none
    else if ma60 ks < latestClose ks ∧ previousClose ks ≤ ma60 ks then none
    else if latestClose ks < ma60 ks ∧ ma60 ks ≤ previousClose ks then none
    else
      match findAsset st s with
      | none => none
      | some a =>
        if a.status = "breakdown" ∧ latestClose ks < ma60 ks then
          some (lossReport s a.eventPrice (latestClose ks))
        else none

/-- The symbol's data produce a new crossing event (either direction). -/
def hasNewEvent : Option (List Kline) → Prop
  | none => False
  | some ks =>
      ¬ ks.length < 61 ∧
        ((ma60 ks < latestClose ks ∧ previousClose ks ≤ ma60 ks) ∨
         (latestClose ks < ma60 ks ∧ ma60 ks ≤ previousClose ks))

/-- One section of the DingTalk message: fixed title, one bullet per item,
or the single 无 placeholder when the section is empty. -/
def formatSection (title : String) (items : List String) : String :=
  "**" ++ title ++ "**\n\n" ++
    (if items.length > 0 then String.join (items.map (fun item => "- " ++ item ++ "\n"))
     else "- 无\n") ++ "\n"

/-- The full four-section message body built by sendFourPartDingTalkMessage. -/
def buildMessage (today : String) (b bd g l : List String) : String :=
  "### MA60 均线监控日报 (" ++ today ++ ")\n\n" ++
  formatSection "🚀 当日突破 (MA60)" b ++
  formatSection "🚨 当日跌破 (MA60)" bd ++
  formatSection "📈 已突破币种追踪" g ++
  formatSection "📉 已跌破币种追踪" l

/-- What one run of runCheck produces after a successful state load: the
message handed to the webhook and the state map handed to saveStateToFile. -/
structure CheckOutcome where
  message : String
  savedState : StateMap
  deriving DecidableEq, Repr

/-- runCheck after loading: analyze, build and send the four-part message,
save the (possibly mutated) state. -/
def runCheck (today : String) (fetch : String → Option (List Kline))
    (symbolsRes : Option (List String)) (loaded : StateMap) : CheckOutcome :=
  let r := trackAndAnalyze today fetch symbolsRes loaded
  { message := buildMessage today r.dailyBreakouts r.dailyBreakdowns r.trackedGains r.trackedLosses,
    savedState := r.trackedAssets }

/-- JSON trees, the level at which we model the state file produced by
json.MarshalIndent and read back by json.Unmarshal. -/
inductive Json where
  | jstr : String → Json
  | jnum : ℚ → Json
  | jobj : List (String × Json) → Json

/-- Field lookup in a JSON object. -/
def getField (fields : List (String × Json)) (k : String) : Option Json :=
  (fields.find? (fun p => p.1 == k)).map (fun p => p.2)

/-- Read a JSON string field the way json.Unmarshal fills a Go string: a
missing field leaves the zero value "", a present non-string field is an
unmarshal error. -/
def asStr : Option Json → Option String
  | none => some ""
  | some (Json.jstr s) => some s
  | some _ => none

/-- Read a JSON number field into a Go float64 (zero value 0 when missing). -/
def asNum : Option Json → Option ℚ
  | none => some 0
  | some (Json.jnum q) => some q
  | some _ => none

/-- Marshal one TrackedAsset with its four json-tagged fields. -/
def encodeAsset (a : TrackedAsset) : Json :=
  Json.jobj [("symbol", Json.jstr a.symbol), ("status", Json.jstr a.status),
             ("eventPrice", Json.jnum a.eventPrice), ("eventDate", Json.jstr a.eventDate)]

/-- Unmarshal one TrackedAsset. -/
def decodeAsset : Json → Option TrackedAsset
  | Json.jobj fields =>
      match asStr (getField fields "symbol"), asStr (getField fields "status"),
            asNum (getField fields "eventPrice"), asStr (getField fields "eventDate") with
      | some sym, some st, some p, some d => some ⟨sym, st, p, d⟩
      | _, _, _, _ => none
  | _ => none

/-- saveStateToFile: marshal the whole map as one JSON object keyed by symbol. -/
def encodeState (m : StateMap) : Json :=
  Json.jobj (m.map (fun p => (p.1, encodeAsset p.2)))

/-- One step of unmarshalling the state object into the (initially empty)
Go map. -/
def decodeStep (acc : Option StateMap) (p : String × Json) : Option StateMap :=
  match acc, decodeAsset p.2 with
  | some m, some a => some (insertAsset m p.1 a)
  | _, _ => none

/-- loadStateFromFile on well-formed content: unmarshal every field of the
top-level object into the map. -/
def decodeState : Json → Option StateMap
  | Json.jobj fields => fields.foldl decodeStep (some [])
  | _ => none

/-- 61 candles whose first 60 closes are 1 and whose latest close is 2:
MA60 = 1, previousClose = 1, latestClose = 2, a fresh breakout. -/
def ksUp : List Kline := List.replicate 60 ⟨some 1⟩ ++ [⟨some 2⟩]

/-- 61 candles all closing at 1: latestClose = MA60 exactly. -/
def ksFlat : List Kline := List.replicate 61 ⟨some 1⟩

/-- 59 closes at 100, then 106 and 110: MA60 = 100.1, previousClose = 106,
latestClose = 110 — no new crossing, a tracked breakout still above MA60. -/
def ksGainW : List Kline := List.replicate 59 ⟨some 100⟩ ++ [⟨some 106⟩, ⟨some 110⟩]

/-- 60 closes at 1 and a latest close whose string fails to parse: the
source reads it as 0 and records a breakdown at price 0. -/
def ksBadParse : List Kline := List.replicate 60 ⟨some 1⟩ ++ [⟨none⟩]

/-- A state map already tracking SUSDT as a breakout from price 1. -/
def stSameDir : StateMap := [("SUSDT", ⟨"SUSDT", "breakout", 1, "2026-01-01"⟩)]

/-- An accumulator holding the stSameDir map, as at the start of a pass. -/
def accSameDir : AnalyzeState := ⟨[], [], [], [], stSameDir⟩

/-- An accumulator tracking BTCUSDT as a breakout from price 100. -/
def accGainW : AnalyzeState :=
  ⟨[], [], [], [], [("BTCUSDT", ⟨"BTCUSDT", "breakout", 100, "2026-01-01"⟩)]⟩

/-- A fetch that always fails. -/
def fetchNone : String → Option (List Kline) := fun _ => none

/-- A fetch that always returns the fresh-breakout candles ksUp. -/
def fetchUp : String → Option (List Kline) := fun _ => some ksUp

/-- A fetch that always returns the no-crossing candles ksFlat (latest
close exactly at MA60). -/
def fetchFlat : String → Option (List Kline) := fun _ => some ksFlat

/-- Two-symbol state map used to exercise the save/load round trip. -/
def stRound : StateMap :=
  [("BTCUSDT", ⟨"BTCUSDT", "breakout", 100, "2026-01-01"⟩),
   ("ETHUSDT", ⟨"ETHUSDT", "breakdown", 5 / 2, "2026-01-03"⟩)]

/-! ### State-map lemmas -/

theorem findAsset_insertAsset_self (m : StateMap) (s : String) (a : TrackedAsset) :
    findAsset (insertAsset m s a) s = some a := by
  induction m with
  | nil => simp [insertAsset, findAsset]
  | cons p rest ih =>
      obtain ⟨k, v⟩ := p
      by_cases h : k = s
      · simp [insertAsset, h, findAsset]
      · simp [insertAsset, h, findAsset, ih]

theorem findAsset_insertAsset_ne (m : StateMap) (s t : String) (a : TrackedAsset)
    (h : t ≠ s) : findAsset (insertAsset m s a) t = findAsset m t := by
  induction m with
  | nil => simp [insertAsset, findAsset, Ne.symm h]
  | cons p rest ih =>
      obtain ⟨k, v⟩ := p
      by_cases hk : k = s
      · subst hk
        simp [insertAsset, findAsset, Ne.symm h]
      · simp [insertAsset, hk, findAsset, ih]

/-! ### Branch lemmas for the per-symbol loop body -/

theorem processSymbol_none (today : String) (s : String) (acc : AnalyzeState) :
    processSymbol today none s acc = acc := rfl

theorem processSymbol_short (today : String) (s : String) (ks : List Kline)
    (acc : AnalyzeState) (h : ks.length < 61) :
    processSymbol today (some ks) s acc = acc := by
  simp [processSymbol, h]

theorem processSymbol_breakout (today : String) (s : String) (ks : List Kline)
    (acc : AnalyzeState) (h61 : ¬ ks.length < 61)
    (hbo : ma60 ks < latestClose ks ∧ previousClose ks ≤ ma60 ks) :
    processSymbol today (some ks) s acc =
      { acc with
        dailyBreakouts := acc.dailyBreakouts ++ [breakoutReport s (latestClose ks)],
        trackedAssets := insertAsset acc.trackedAssets s
          ⟨s, "breakout", latestClose ks, today⟩ } := by
  simp [processSymbol, h61, hbo]

theorem processSymbol_breakdown (today : String) (s : String) (ks : List Kline)
    (acc : AnalyzeState) (h61 : ¬ ks.length < 61)
    (hbd : latestClose ks < ma60 ks ∧ ma60 ks ≤ previousClose ks) :
    processSymbol today (some ks) s acc =
      { acc with
        dailyBreakdowns := acc.dailyBreakdowns ++ [breakdownReport s (latestClose ks)],
        trackedAssets := insertAsset acc.trackedAssets s
          ⟨s, "breakdown", latestClose ks, today⟩ } := by
  have hnbo : ¬ (ma60 ks < latestClose ks ∧ previousClose ks ≤ ma60 ks) :=
    fun h => absurd hbd.1 (not_lt.2 h.1.le)
  simp [processSymbol, h61, hnbo, hbd]

theorem processSymbol_tracked_none (today : String) (s : String) (ks : List Kline)
    (acc : AnalyzeState) (h61 : ¬ ks.length < 61)
    (hnbo : ¬ (ma60 ks < latestClose ks ∧ previousClose ks ≤ ma60 ks))
    (hnbd : ¬ (latestClose ks < ma60 ks ∧ ma60 ks ≤ previousClose ks))
    (hf : findAsset acc.trackedAssets s = none) :
    processSymbol today (some ks) s acc = acc := by
  simp [processSymbol, h61, hnbo, hnbd, hf]

theorem processSymbol_tracked_some (today : String) (s : String) (ks : List Kline)
    (acc : AnalyzeState) (a : TrackedAsset) (h61 : ¬ ks.length < 61)
    (hnbo : ¬ (ma60 ks < latestClose ks ∧ previousClose ks ≤ ma60 ks))
    (hnbd : ¬ (latestClose ks < ma60 ks ∧ ma60 ks ≤ previousClose ks))
    (hf : findAsset acc.trackedAssets s = some a) :
    processSymbol today (some ks) s acc =
      (if a.status = "breakdown" ∧ latestClose ks < ma60 ks then
        { (if a.status = "breakout" ∧ ma60 ks < latestClose ks then
             { acc with trackedGains :=
                 acc.trackedGains ++ [gainReport s a.eventPrice (latestClose ks)] }
           else acc) with
          trackedLosses :=
            (if a.status = "breakout" ∧ ma60 ks < latestClose ks then
               { acc with trackedGains :=
                   acc.trackedGains ++ [gainReport s a.eventPrice (latestClose ks)] }
             else acc).trackedLosses ++ [lossReport s a.eventPrice (latestClose ks)] }
      else
        (if a.status = "breakout" ∧ ma60 ks < latestClose ks then
           { acc with trackedGains :=
               acc.trackedGains ++ [gainReport s a.eventPrice (latestClose ks)] }
         else acc)) := by
  simp [processSymbol, h61, hnbo, hnbd, hf]

/-! ### Effect of one iteration on the four report lists -/

theorem processSymbol_lists (today : String) (res : Option (List Kline)) (s : String)
    (acc : AnalyzeState) :
    (processSymbol today res s acc).dailyBreakouts
        = acc.dailyBreakouts ++ (breakoutEntry res s).toList ∧
    (processSymbol today res s acc).dailyBreakdowns
        = acc.dailyBreakdowns ++ (breakdownEntry res s).toList ∧
    (processSymbol today res s acc).trackedGains
        = acc.trackedGains ++ (gainEntry acc.trackedAssets res s).toList ∧
    (processSymbol today res s acc).trackedLosses
        = acc.trackedLosses ++ (lossEntry acc.trackedAssets res s).toList := by
  cases res with
  | none => simp [processSymbol, breakoutEntry, breakdownEntry, gainEntry, lossEntry]
  | some ks =>
    by_cases h61 : ks.length < 61
    · simp [processSymbol, breakoutEntry, breakdownEntry, gainEntry, lossEntry, h61]
    · by_cases hbo : ma60 ks < latestClose ks ∧ previousClose ks ≤ ma60 ks
      · simp [processSymbol, breakoutEntry, breakdownEntry, gainEntry, lossEntry, h61, hbo]
      · by_cases hbd : latestClose ks < ma60 ks ∧ ma60 ks ≤ previousClose ks
        · simp [processSymbol, breakoutEntry, breakdownEntry, gainEntry, lossEntry,
            h61, hbo, hbd]
        · cases hf : findAsset acc.trackedAssets s with
          | none =>
            simp [processSymbol, breakoutEntry, breakdownEntry, gainEntry, lossEntry,
              h61, hbo, hbd, hf]
          | some a =>
            by_cases hg : a.status = "breakout" ∧ ma60 ks < latestClose ks
            · by_cases hl : a.status = "breakdown" ∧ latestClose ks < ma60 ks
              · exact absurd (hg.1.symm.trans hl.1) (by decide)
              · have hple : ¬ previousClose ks ≤ ma60 ks := fun hp => hbo ⟨hg.2, hp⟩
                have hnlt : ¬ latestClose ks < ma60 ks := not_lt.2 hg.2.le
                simp [processSymbol, breakoutEntry, breakdownEntry, gainEntry, lossEntry,
                  h61, hbo, hbd, hf, hg, hl, hple, hnlt]
            · by_cases hl : a.status = "breakdown" ∧ latestClose ks < ma60 ks
              · have hpge : ¬ ma60 ks ≤ previousClose ks := fun hp => hbd ⟨hl.2, hp⟩
                have hnlt : ¬ ma60 ks < latestClose ks := not_lt.2 hl.2.le
                simp [processSymbol, breakoutEntry, breakdownEntry, gainEntry, lossEntry,
                  h61, hbo, hbd, hf, hg, hl, hpge, hnlt]
              · simp [processSymbol, breakoutEntry, breakdownEntry, gainEntry, lossEntry,
                  h61, hbo, hbd, hf, hg, hl]

/-! ### Effect of one iteration on the state map -/

theorem processSymbol_state_not_new (today : String) (res : Option (List Kline))
    (s : String) (acc : AnalyzeState) (h : ¬ hasNewEvent res) :
    (processSymbol today res s acc).trackedAssets = acc.trackedAssets := by
  cases res with
  | none => rfl
  | some ks =>
    by_cases h61 : ks.length < 61
    · simp [processSymbol, h61]
    · have hdir : ¬ ((ma60 ks < latestClose ks ∧ previousClose ks ≤ ma60 ks) ∨
          (latestClose ks < ma60 ks ∧ ma60 ks ≤ previousClose ks)) :=
        fun hd => h ⟨h61, hd⟩
      have hnbo := (not_or.mp hdir).1
      have hnbd := (not_or.mp hdir).2
      cases hf : findAsset acc.trackedAssets s with
      | none => simp [processSymbol, h61, hnbo, hnbd, hf]
      | some a =>
        by_cases hg : a.status = "breakout" ∧ ma60 ks < latestClose ks
        · by_cases hl : a.status = "breakdown" ∧ latestClose ks < ma60 ks
          · exact absurd (hg.1.symm.trans hl.1) (by decide)
          · have hple : ¬ previousClose ks ≤ ma60 ks := fun hp => hnbo ⟨hg.2, hp⟩
            simp [processSymbol, h61, hnbo, hnbd, hf, hg, hl, hple]
        · by_cases hl : a.status = "breakdown" ∧ latestClose ks < ma60 ks
          · have hpge : ¬ ma60 ks ≤ previousClose ks := fun hp => hnbd ⟨hl.2, hp⟩
            simp [processSymbol, h61, hnbo, hnbd, hf, hg, hl, hpge]
          · simp [processSymbol, h61, hnbo, hnbd, hf, hg, hl]

theorem processSymbol_state_new (today : String) (s : String) (ks : List Kline)
    (acc : AnalyzeState) (h61 : ¬ ks.length < 61)
    (h : (ma60 ks < latestClose ks ∧ previousClose ks ≤ ma60 ks) ∨
         (latestClose ks < ma60 ks ∧ ma60 ks ≤ previousClose ks)) :
    ∃ stat : String, (stat = "breakout" ∨ stat = "breakdown") ∧
      (processSymbol today (some ks) s acc).trackedAssets =
        insertAsset acc.trackedAssets s ⟨s, stat, latestClose ks, today⟩ := by
  rcases h with hbo | hbd
  · exact ⟨"breakout", Or.inl rfl, by rw [processSymbol_breakout today s ks acc h61 hbo]⟩
  · exact ⟨"breakdown", Or.inr rfl, by rw [processSymbol_breakdown today s ks acc h61 hbd]⟩

/-! ### Per-symbol entry classifications -/

theorem gainEntry_eq_of_find_eq (m1 m2 : StateMap) (res : Option (List Kline))
    (s : String) (h : ¬ hasNewEvent res → findAsset m1 s = findAsset m2 s) :
    gainEntry m1 res s = gainEntry m2 res s := by
  cases res with
  | none => rfl
  | some ks =>
    by_cases h61 : ks.length < 61
    · simp [gainEntry, h61]
    · by_cases hbo : ma60 ks < latestClose ks ∧ previousClose ks ≤ ma60 ks
      · simp [gainEntry, h61, hbo]
      · by_cases hbd : latestClose ks < ma60 ks ∧ ma60 ks ≤ previousClose ks
        · simp [gainEntry, h61, hbo, hbd]
        · have hfind := h (by simp [hasNewEvent, hbo, hbd])
          simp [gainEntry, h61, hbo, hbd, hfind]

theorem lossEntry_eq_of_find_eq (m1 m2 : StateMap) (res : Option (List Kline))
    (s : String) (h : ¬ hasNewEvent res → findAsset m1 s = findAsset m2 s) :
    lossEntry m1 res s = lossEntry m2 res s := by
  cases res with
  | none => rfl
  | some ks =>
    by_cases h61 : ks.length < 61
    · simp [lossEntry, h61]
    · by_cases hbo : ma60 ks < latestClose ks ∧ previousClose ks ≤ ma60 ks
      · simp [lossEntry, h61, hbo]
      · by_cases hbd : latestClose ks < ma60 ks ∧ ma60 ks ≤ previousClose ks
        · simp [lossEntry, h61, hbo, hbd]
        · have hfind := h (by simp [hasNewEvent, hbo, hbd])
          simp [lossEntry, h61, hbo, hbd, hfind]

theorem gainEntry_isSome_lt (st : StateMap) (ks : List Kline) (s : String)
    (h : (gainEntry st (some ks) s).isSome) : ma60 ks < latestClose ks := by
  by_cases h61 : ks.length < 61
  · simp [gainEntry, h61] at h
  · by_cases hbo : ma60 ks < latestClose ks ∧ previousClose ks ≤ ma60 ks
    · exact hbo.1
    · by_cases hbd : latestClose ks < ma60 ks ∧ ma60 ks ≤ previousClose ks
      · simp [gainEntry, h61, hbo, hbd] at h
      · cases hf : findAsset st s with
        | none => simp [gainEntry, h61, hbo, hbd, hf] at h
        | some a =>
          by_cases hg : a.status = "breakout" ∧ ma60 ks < latestClose ks
          · exact hg.2
          · simp [gainEntry, h61, hbo, hbd, hf, hg] at h

theorem lossEntry_isSome_lt (st : StateMap) (ks : List Kline) (s : String)
    (h : (lossEntry st (some ks) s).isSome) : latestClose ks < ma60 ks := by
  by_cases h61 : ks.length < 61
  · simp [lossEntry, h61] at h
  · by_cases hbo : ma60 ks < latestClose ks ∧ previousClose ks ≤ ma60 ks
    · simp [lossEntry, h61, hbo] at h
    · by_cases hbd : latestClose ks < ma60 ks ∧ ma60 ks ≤ previousClose ks
      · simp [lossEntry, h61, hbo, hbd] at h
      · cases hf : findAsset st s with
        | none => simp [lossEntry, h61, hbo, hbd, hf] at h
        | some a =>
          by_cases hl : a.status = "breakdown" ∧ latestClose ks < ma60 ks
          · exact hl.2
          · simp [lossEntry, h61, hbo, hbd, hf, hl] at h

/-! ### Fold lemmas over the whole symbol list -/

theorem analyzeStep_find (today : String) (fetch : String → Option (List Kline))
    (acc : AnalyzeState) (s t : String) :
    findAsset (analyzeStep today fetch acc s).trackedAssets t
        = findAsset acc.trackedAssets t ∨
    (∃ ks, fetch t = some ks ∧ ¬ ks.length < 61 ∧
      ((ma60 ks < latestClose ks ∧ previousClose ks ≤ ma60 ks ∧
        findAsset (analyzeStep today fetch acc s).trackedAssets t
          = some ⟨t, "breakout", latestClose ks, today⟩) ∨
       (latestClose ks < ma60 ks ∧ ma60 ks ≤ previousClose ks ∧
        findAsset (analyzeStep today fetch acc s).trackedAssets t
          = some ⟨t, "breakdown", latestClose ks, today⟩))) := by
  by_cases hne : hasNewEvent (fetch s)
  · cases hres : fetch s with
    | none => rw [hres] at hne; exact absurd hne (by simp [hasNewEvent])
    | some ks =>
      rw [hres] at hne
      obtain ⟨h61, hdir⟩ := hne
      by_cases hts : t = s
      · subst hts
        right
        refine ⟨ks, hres, h61, ?_⟩
        rcases hdir with hbo | hbd
        · refine Or.inl ⟨hbo.1, hbo.2, ?_⟩
          show findAsset (processSymbol today (fetch t) t acc).trackedAssets t = _
          rw [hres, processSymbol_breakout today t ks acc h61 hbo]
          exact findAsset_insertAsset_self _ _ _
        · refine Or.inr ⟨hbd.1, hbd.2, ?_⟩
          show findAsset (processSymbol today (fetch t) t acc).trackedAssets t = _
          rw [hres, processSymbol_breakdown today t ks acc h61 hbd]
          exact findAsset_insertAsset_self _ _ _
      · left
        obtain ⟨stat, _, hstate⟩ := processSymbol_state_new today s ks acc h61 hdir
        show findAsset (processSymbol today (fetch s) s acc).trackedAssets t = _
        rw [hres, hstate, findAsset_insertAsset_ne _ _ _ _ hts]
  · left
    show findAsset (processSymbol today (fetch s) s acc).trackedAssets t = _
    rw [processSymbol_state_not_new today (fetch s) s acc hne]

theorem foldl_state_find (today : String) (fetch : String → Option (List Kline))
    (symbols : List String) :
    ∀ (acc : AnalyzeState) (t : String),
      findAsset ((symbols.foldl (analyzeStep today fetch) acc).trackedAssets) t
          = findAsset acc.trackedAssets t ∨
      (∃ ks, fetch t = some ks ∧ ¬ ks.length < 61 ∧
        ((ma60 ks < latestClose ks ∧ previousClose ks ≤ ma60 ks ∧
          findAsset ((symbols.foldl (analyzeStep today fetch) acc).trackedAssets) t
            = some ⟨t, "breakout", latestClose ks, today⟩) ∨
         (latestClose ks < ma60 ks ∧ ma60 ks ≤ previousClose ks ∧
          findAsset ((symbols.foldl (analyzeStep today fetch) acc).trackedAssets) t
            = some ⟨t, "breakdown", latestClose ks, today⟩))) := by
  induction symbols with
  | nil => intro acc t; left; rfl
  | cons s rest ih =>
      intro acc t
      rw [List.foldl_cons]
      rcases ih (analyzeStep today fetch acc s) t with h | ⟨ks, hks, h61, h⟩
      · rcases analyzeStep_find today fetch acc s t with h2 | ⟨ks, hks, h61, h2⟩
        · left; rw [h, h2]
        · right
          refine ⟨ks, hks, h61, ?_⟩
          rcases h2 with ⟨hc1, hc2, h2⟩ | ⟨hc1, hc2, h2⟩
          · exact Or.inl ⟨hc1, hc2, h.trans h2⟩
          · exact Or.inr ⟨hc1, hc2, h.trans h2⟩
      · right; exact ⟨ks, hks, h61, h⟩

theorem foldl_state_frame (today : String) (fetch : String → Option (List Kline))
    (symbols : List String) :
    ∀ (acc : AnalyzeState) (t : String), ¬ hasNewEvent (fetch t) →
      findAsset ((symbols.foldl (analyzeStep today fetch) acc).trackedAssets) t
        = findAsset acc.trackedAssets t := by
  induction symbols with
  | nil => intro acc t _; rfl
  | cons s rest ih =>
      intro acc t ht
      rw [List.foldl_cons, ih (analyzeStep today fetch acc s) t ht]
      by_cases hne : hasNewEvent (fetch s)
      · have hts : t ≠ s := fun e => ht (e ▸ hne)
        cases hres : fetch s with
        | none => rw [hres] at hne; exact absurd hne (by simp [hasNewEvent])
        | some ks =>
          rw [hres] at hne
          obtain ⟨h61, hdir⟩ := hne
          obtain ⟨stat, _, hstate⟩ := processSymbol_state_new today s ks acc h61 hdir
          show findAsset (processSymbol today (fetch s) s acc).trackedAssets t = _
          rw [hres, hstate, findAsset_insertAsset_ne _ _ _ _ hts]
      · show findAsset (processSymbol today (fetch s) s acc).trackedAssets t = _
        rw [processSymbol_state_not_new today (fetch s) s acc hne]

theorem foldl_lists (today : String) (fetch : String → Option (List Kline))
    (st : StateMap) (symbols : List String) :
    ∀ acc : AnalyzeState,
      (∀ t, ¬ hasNewEvent (fetch t) → findAsset acc.trackedAssets t = findAsset st t) →
      (symbols.foldl (analyzeStep today fetch) acc).dailyBreakouts
          = acc.dailyBreakouts ++ symbols.filterMap (fun s => breakoutEntry (fetch s) s) ∧
      (symbols.foldl (analyzeStep today fetch) acc).dailyBreakdowns
          = acc.dailyBreakdowns ++ symbols.filterMap (fun s => breakdownEntry (fetch s) s) ∧
      (symbols.foldl (analyzeStep today fetch) acc).trackedGains
          = acc.trackedGains ++ symbols.filterMap (fun s => gainEntry st (fetch s) s) ∧
      (symbols.foldl (analyzeStep today fetch) acc).trackedLosses
          = acc.trackedLosses ++ symbols.filterMap (fun s => lossEntry st (fetch s) s) := by
  induction symbols with
  | nil => intro acc _; simp
  | cons s rest ih =>
      intro acc hinv
      rw [List.foldl_cons]
      have hinv2 : ∀ t, ¬ hasNewEvent (fetch t) →
          findAsset (analyzeStep today fetch acc s).trackedAssets t = findAsset st t := by
        intro t ht
        by_cases hne : hasNewEvent (fetch s)
        · have hts : t ≠ s := fun e => ht (e ▸ hne)
          cases hres : fetch s with
          | none => rw [hres] at hne; exact absurd hne (by simp [hasNewEvent])
          | some ks =>
            rw [hres] at hne
            obtain ⟨h61, hdir⟩ := hne
            obtain ⟨stat, _, hstate⟩ := processSymbol_state_new today s ks acc h61 hdir
            show findAsset (processSymbol today (fetch s) s acc).trackedAssets t = _
            rw [hres, hstate, findAsset_insertAsset_ne _ _ _ _ hts]
            exact hinv t ht
        · show findAsset (processSymbol today (fetch s) s acc).trackedAssets t = _
          rw [processSymbol_state_not_new today (fetch s) s acc hne]
          exact hinv t ht
      obtain ⟨h1, h2, h3, h4⟩ := ih (analyzeStep today fetch acc s) hinv2
      have hstep := processSymbol_lists today (fetch s) s acc
      have hgain : gainEntry acc.trackedAssets (fetch s) s = gainEntry st (fetch s) s :=
        gainEntry_eq_of_find_eq _ _ _ _ (fun hne => hinv s hne)
      have hloss : lossEntry acc.trackedAssets (fetch s) s = lossEntry st (fetch s) s :=
        lossEntry_eq_of_find_eq _ _ _ _ (fun hne => hinv s hne)
      refine ⟨?_, ?_, ?_, ?_⟩
      · rw [h1, List.filterMap_cons]
        show (analyzeStep today fetch acc s).dailyBreakouts ++ _ = _
        rw [show (analyzeStep today fetch acc s).dailyBreakouts
              = acc.dailyBreakouts ++ (breakoutEntry (fetch s) s).toList from hstep.1]
        cases hE : breakoutEntry (fetch s) s <;> simp
      · rw [h2, List.filterMap_cons]
        show (analyzeStep today fetch acc s).dailyBreakdowns ++ _ = _
        rw [show (analyzeStep today fetch acc s).dailyBreakdowns
              = acc.dailyBreakdowns ++ (breakdownEntry (fetch s) s).toList from hstep.2.1]
        cases hE : breakdownEntry (fetch s) s <;> simp
      · rw [h3, List.filterMap_cons]
        show (analyzeStep today fetch acc s).trackedGains ++ _ = _
        rw [show (analyzeStep today fetch acc s).trackedGains
              = acc.trackedGains ++ (gainEntry acc.trackedAssets (fetch s) s).toList
            from hstep.2.2.1, hgain]
        cases hE : gainEntry st (fetch s) s <;> simp
      · rw [h4, List.filterMap_cons]
        show (analyzeStep today fetch acc s).trackedLosses ++ _ = _
        rw [show (analyzeStep today fetch acc s).trackedLosses
              = acc.trackedLosses ++ (lossEntry acc.trackedAssets (fetch s) s).toList
            from hstep.2.2.2, hloss]
        cases hE : lossEntry st (fetch s) s <;> simp

/-! ### Arithmetic of the moving average -/

theorem sum_map_take_eq_sum_range (f : Kline → ℚ) :
    ∀ (n : ℕ) (l : List Kline), n ≤ l.length →
      ((l.take n).map f).sum = ∑ i ∈ Finset.range n, f (l.getD i default) := by
  intro n
  induction n with
  | zero => intro l _; simp
  | succ n ih =>
      intro l hl
      cases l with
      | nil => simp at hl
      | cons a l =>
          rw [List.take_succ_cons, List.map_cons, List.sum_cons, Finset.sum_range_succ']
          simp only [List.getD_cons_succ, List.getD_cons_zero]
          rw [ih l (by simpa using Nat.succ_le_succ_iff.mp (by simpa using hl))]
          exact add_comm _ _

/-! ### JSON round trip -/

theorem decodeAsset_encodeAsset (a : TrackedAsset) :
    decodeAsset (encodeAsset a) = some a := rfl

theorem insertAsset_of_not_mem (m : StateMap) (k : String) (a : TrackedAsset)
    (h : k ∉ m.map Prod.fst) : insertAsset m k a = m ++ [(k, a)] := by
  induction m with
  | nil => rfl
  | cons p rest ih =>
      obtain ⟨k0, v0⟩ := p
      simp only [List.map_cons, List.mem_cons] at h
      push_neg at h
      have hk : ¬ k0 = k := fun e => h.1 e.symm
      simp [insertAsset, hk, ih h.2]

theorem decodeState_fold (m : StateMap) :
    ∀ acc : StateMap, ((acc ++ m).map Prod.fst).Nodup →
      (m.map (fun p => (p.1, encodeAsset p.2))).foldl decodeStep (some acc)
        = some (acc ++ m) := by
  induction m with
  | nil => intro acc _; simp
  | cons p rest ih =>
      intro acc h
      obtain ⟨k, a⟩ := p
      rw [List.map_cons, List.foldl_cons]
      have hk : k ∉ acc.map Prod.fst := by
        intro hmem
        have := List.nodup_append.mp (by simpa using h)
        exact this.2.2 hmem (by simp)
      have hstep : decodeStep (some acc) (k, encodeAsset a) = some (acc ++ [(k, a)]) := by
        simp [decodeStep, decodeAsset_encodeAsset, insertAsset_of_not_mem acc k a hk]
      rw [hstep, ih (acc ++ [(k, a)]) (by simpa using h)]
      simp

/-! ### Claim theorems -/

/-- C2: for a symbol with at least 61 candles, MA60 is the arithmetic mean of
the closes at indices 0..59 (the latest candle's close is excluded),
previousClose is the close at index 59 and latestClose the close at
index 60. -/
theorem C2_ma60_mean (ks : List Kline) (h : 61 ≤ ks.length) :
    ma60 ks = (∑ i ∈ Finset.range 60, parseClose (ks.getD i default)) / 60 ∧
    previousClose ks = parseClose (ks.getD 59 default) ∧
    latestClose ks = parseClose (ks.getD 60 default) := by
  refine ⟨?_, rfl, rfl⟩
  unfold ma60
  rw [sum_map_take_eq_sum_range parseClose 60 ks (by omega)]

/-- Witness for C2 at 61 concrete candles. -/
theorem C2_ma60_mean_witness :
    61 ≤ ksFlat.length ∧
    (ma60 ksFlat = (∑ i ∈ Finset.range 60, parseClose (ksFlat.getD i default)) / 60 ∧
     previousClose ksFlat = parseClose (ksFlat.getD 59 default) ∧
     latestClose ksFlat = parseClose (ksFlat.getD 60 default)) :=
  ⟨by decide, C2_ma60_mean ksFlat (by decide)⟩

/-- C5: a symbol whose fetch fails or returns fewer than 61 candles is
skipped entirely: its iteration leaves the accumulator (all four lists and
the state map) unchanged, and the whole pass gives the same result as if
the symbol were absent from the listing. -/
theorem C5_skip_short_history (today : String) (fetch : String → Option (List Kline))
    (st : StateMap) (xs ys : List String) (s : String)
    (h : fetch s = none ∨ ∃ ks, fetch s = some ks ∧ ks.length < 61) :
    trackAndAnalyze today fetch (some (xs ++ s :: ys)) st
        = trackAndAnalyze today fetch (some (xs ++ ys)) st ∧
    ∀ acc, processSymbol today (fetch s) s acc = acc := by
  have hid : ∀ acc, processSymbol today (fetch s) s acc = acc := by
    intro acc
    rcases h with h | ⟨ks, hks, hlen⟩
    · rw [h]
      rfl
    · rw [hks]
      exact processSymbol_short today s ks acc hlen
  refine ⟨?_, hid⟩
  show List.foldl (analyzeStep today fetch) ⟨[], [], [], [], st⟩ (xs ++ s :: ys)
      = List.foldl (analyzeStep today fetch) ⟨[], [], [], [], st⟩ (xs ++ ys)
  rw [List.foldl_append, List.foldl_append, List.foldl_cons]
  have hstep : analyzeStep today fetch
      (List.foldl (analyzeStep today fetch) ⟨[], [], [], [], st⟩ xs) s
      = List.foldl (analyzeStep today fetch) ⟨[], [], [], [], st⟩ xs := hid _
  rw [hstep]

/-- Witness for C5 with a failing fetch. -/
theorem C5_skip_short_history_witness :
    trackAndAnalyze "2026-01-02" fetchNone (some ["AUSDT"]) []
      = trackAndAnalyze "2026-01-02" fetchNone (some []) [] :=
  (C5_skip_short_history "2026-01-02" fetchNone [] [] [] "AUSDT" (Or.inl rfl)).1

/-- C8: saving a state map whose keys are unique and loading it back yields
exactly the same map, every entry's symbol, status, eventPrice and
eventDate preserved. -/
theorem C8_round_trip (m : StateMap) (h : (m.map Prod.fst).Nodup) :
    decodeState (encodeState m) = some m := by
  have hfold := decodeState_fold m [] (by simpa using h)
  simpa [decodeState, encodeState] using hfold

/-- Witness for C8 on a two-entry map. -/
theorem C8_round_trip_witness : decodeState (encodeState stRound) = some stRound :=
  C8_round_trip stRound (by decide)

/-- C10: when the symbol listing fails, trackAndAnalyze returns four empty
report lists and the loaded state map unchanged; runCheck still sends the
message built from four empty sections — each rendered with the 无
placeholder — and persists exactly the loaded map. -/
theorem C10_listing_failure (today : String) (fetch : String → Option (List Kline))
    (st : StateMap) :
    trackAndAnalyze today fetch none st = ⟨[], [], [], [], st⟩ ∧
    runCheck today fetch none st = ⟨buildMessage today [] [] [] [], st⟩ ∧
    buildMessage today [] [] [] [] =
      "### MA60 均线监控日报 (" ++ today ++
        ")\n\n**🚀 当日突破 (MA60)**\n\n- 无\n\n**🚨 当日跌破 (MA60)**\n\n- 无\n\n**📈 已突破币种追踪**\n\n- 无\n\n**📉 已跌破币种追踪**\n\n- 无\n\n" := by
  refine ⟨rfl, rfl, ?_⟩
  simp [buildMessage, formatSection, String.append_assoc]

/-- C1: with 61 candles, previousClose ≤ MA60 < latestClose is classified as
a new breakout — a breakout report is appended and the state entry for the
symbol becomes status=breakout, eventPrice=latestClose, eventDate=today;
symmetrically previousClose ≥ MA60 > latestClose is a new breakdown. -/
theorem C1_new_crossing_classification (today s : String) (ks : List Kline)
    (acc : AnalyzeState) (hlen : ks.length = 61) :
    (previousClose ks ≤ ma60 ks ∧ ma60 ks < latestClose ks →
      (processSymbol today (some ks) s acc).dailyBreakouts
          = acc.dailyBreakouts ++ [breakoutReport s (latestClose ks)] ∧
      findAsset (processSymbol today (some ks) s acc).trackedAssets s
          = some ⟨s, "breakout", latestClose ks, today⟩) ∧
    (ma60 ks ≤ previousClose ks ∧ latestClose ks < ma60 ks →
      (processSymbol today (some ks) s acc).dailyBreakdowns
          = acc.dailyBreakdowns ++ [breakdownReport s (latestClose ks)] ∧
      findAsset (processSymbol today (some ks) s acc).trackedAssets s
          = some ⟨s, "breakdown", latestClose ks, today⟩) := by
  have h61 : ¬ ks.length < 61 := by omega
  constructor
  · intro h
    rw [processSymbol_breakout today s ks acc h61 ⟨h.2, h.1⟩]
    exact ⟨rfl, findAsset_insertAsset_self _ _ _⟩
  · intro h
    rw [processSymbol_breakdown today s ks acc h61 ⟨h.2, h.1⟩]
    exact ⟨rfl, findAsset_insertAsset_self _ _ _⟩

/-- Witness for C1: a fresh breakout at concrete candles. -/
theorem C1_new_crossing_classification_witness :
    ksUp.length = 61 ∧
    (previousClose ksUp ≤ ma60 ksUp ∧ ma60 ksUp < latestClose ksUp) ∧
    ((processSymbol "2026-01-02" (some ksUp) "AUSDT" ⟨[], [], [], [], []⟩).dailyBreakouts
        = [breakoutReport "AUSDT" (latestClose ksUp)] ∧
     findAsset (processSymbol "2026-01-02" (some ksUp) "AUSDT"
         ⟨[], [], [], [], []⟩).trackedAssets "AUSDT"
        = some ⟨"AUSDT", "breakout", latestClose ksUp, "2026-01-02"⟩) :=
  ⟨by decide, by with_unfolding_all decide,
    (C1_new_crossing_classification "2026-01-02" "AUSDT" ksUp ⟨[], [], [], [], []⟩
      (by decide)).1 (by with_unfolding_all decide)⟩

/-- C4: a pass over a symbol whose latestClose equals MA60 exactly changes
nothing — no report in any of the four lists and the stored entry (indeed
the whole accumulator) is untouched; moreover a tracked-gain report can
only arise when latestClose > MA60 strictly and a tracked-loss report only
when latestClose < MA60 strictly. -/
theorem C4_equality_frame (today s : String) (ks : List Kline) (acc : AnalyzeState) :
    (latestClose ks = ma60 ks → processSymbol today (some ks) s acc = acc) ∧
    ((processSymbol today (some ks) s acc).trackedGains ≠ acc.trackedGains →
      ma60 ks < latestClose ks) ∧
    ((processSymbol today (some ks) s acc).trackedLosses ≠ acc.trackedLosses →
      latestClose ks < ma60 ks) := by
  refine ⟨?_, ?_, ?_⟩
  · intro heq
    by_cases h61 : ks.length < 61
    · exact processSymbol_short today s ks acc h61
    · have hnbo : ¬ (ma60 ks < latestClose ks ∧ previousClose ks ≤ ma60 ks) :=
        fun h => absurd (heq ▸ h.1) (lt_irrefl _)
      have hnbd : ¬ (latestClose ks < ma60 ks ∧ ma60 ks ≤ previousClose ks) :=
        fun h => absurd (heq ▸ h.1) (lt_irrefl _)
      cases hf : findAsset acc.trackedAssets s with
      | none => exact processSymbol_tracked_none today s ks acc h61 hnbo hnbd hf
      | some a =>
        rw [processSymbol_tracked_some today s ks acc a h61 hnbo hnbd hf]
        have hg : ¬ (a.status = "breakout" ∧ ma60 ks < latestClose ks) :=
          fun h => absurd (heq ▸ h.2) (lt_irrefl _)
        have hl : ¬ (a.status = "breakdown" ∧ latestClose ks < ma60 ks) :=
          fun h => absurd (heq ▸ h.2) (lt_irrefl _)
        simp [hg, hl]
  · intro hne
    by_contra hnot
    apply hne
    have h := (processSymbol_lists today (some ks) s acc).2.2.1
    cases hE : gainEntry acc.trackedAssets (some ks) s with
    | none => rw [h, hE]; simp
    | some r =>
      exact absurd (gainEntry_isSome_lt acc.trackedAssets ks s (by rw [hE]; rfl)) hnot
  · intro hne
    by_contra hnot
    apply hne
    have h := (processSymbol_lists today (some ks) s acc).2.2.2
    cases hE : lossEntry acc.trackedAssets (some ks) s with
    | none => rw [h, hE]; simp
    | some r =>
      exact absurd (lossEntry_isSome_lt acc.trackedAssets ks s (by rw [hE]; rfl)) hnot

/-- Witness for C4: candles closing exactly at MA60 leave a tracked
accumulator untouched. -/
theorem C4_equality_frame_witness :
    latestClose ksFlat = ma60 ksFlat ∧
    processSymbol "2026-03-03" (some ksFlat) "SUSDT" accSameDir = accSameDir :=
  ⟨by with_unfolding_all decide,
    (C4_equality_frame "2026-03-03" "SUSDT" ksFlat accSameDir).1
      (by with_unfolding_all decide)⟩

/-- C7: for a tracked breakout entry still strictly above MA60 the appended
tracked-gain report renders (latest − eventPrice) / eventPrice × 100 with
two decimals, and for a tracked breakdown still strictly below MA60 the
loss report renders (eventPrice − latest) / eventPrice × 100; at
eventPrice 100 the closes 110 and 90 both render as 10.00. -/
theorem C7_tracked_percentages (today s : String) (ks : List Kline)
    (acc : AnalyzeState) (a : TrackedAsset)
    (hf : findAsset acc.trackedAssets s = some a)
    (h61 : ¬ ks.length < 61)
    (hnbo : ¬ (ma60 ks < latestClose ks ∧ previousClose ks ≤ ma60 ks))
    (hnbd : ¬ (latestClose ks < ma60 ks ∧ ma60 ks ≤ previousClose ks)) :
    (a.status = "breakout" ∧ ma60 ks < latestClose ks →
      (processSymbol today (some ks) s acc).trackedGains
        = acc.trackedGains ++
            [s ++ " (从 " ++ formatFixed 6 a.eventPrice ++ " 至今涨幅: " ++
              formatFixed 2 ((latestClose ks - a.eventPrice) / a.eventPrice * 100) ++ "%)"]) ∧
    (a.status = "breakdown" ∧ latestClose ks < ma60 ks →
      (processSymbol today (some ks) s acc).trackedLosses
        = acc.trackedLosses ++
            [s ++ " (从 " ++ formatFixed 6 a.eventPrice ++ " 至今跌幅: " ++
              formatFixed 2 ((a.eventPrice - latestClose ks) / a.eventPrice * 100) ++ "%)"]) ∧
    formatFixed 2 (((110 : ℚ) - 100) / 100 * 100) = "10.00" ∧
    formatFixed 2 (((100 : ℚ) - 90) / 100 * 100) = "10.00" := by
  rw [processSymbol_tracked_some today s ks acc a h61 hnbo hnbd hf]
  refine ⟨?_, ?_, by with_unfolding_all decide, by with_unfolding_all decide⟩
  · intro hg
    have hl : ¬ (a.status = "breakdown" ∧ latestClose ks < ma60 ks) :=
      fun h => absurd (hg.1.symm.trans h.1) (by decide)
    simp [hg, hl, gainReport]
  · intro hl
    have hg : ¬ (a.status = "breakout" ∧ ma60 ks < latestClose ks) :=
      fun h => absurd (h.1.symm.trans hl.1) (by decide)
    simp [hg, hl, lossReport]

/-- Witness for C7: BTCUSDT tracked from 100, latest 110, gain 10.00%. -/
theorem C7_tracked_percentages_witness :
    (processSymbol "2026-01-02" (some ksGainW) "BTCUSDT" accGainW).trackedGains
      = ["BTCUSDT (从 100.000000 至今涨幅: 10.00%)"] := by
  have h := (C7_tracked_percentages "2026-01-02" "BTCUSDT" ksGainW accGainW
      ⟨"BTCUSDT", "breakout", 100, "2026-01-01"⟩ (by with_unfolding_all decide)
      (by decide) (by with_unfolding_all decide) (by with_unfolding_all decide)).1
      ⟨rfl, by with_unfolding_all decide⟩
  rw [h]
  with_unfolding_all decide

/-- At most one of the four per-symbol classifications fires for a given
symbol, fetch result and state map. -/
theorem entriesExclusive (st : StateMap) (res : Option (List Kline)) (s : String) :
    ((breakoutEntry res s).isSome →
      breakdownEntry res s = none ∧ gainEntry st res s = none ∧ lossEntry st res s = none) ∧
    ((breakdownEntry res s).isSome →
      gainEntry st res s = none ∧ lossEntry st res s = none) ∧
    ((gainEntry st res s).isSome → lossEntry st res s = none) := by
  cases res with
  | none => simp [breakoutEntry, breakdownEntry, gainEntry, lossEntry]
  | some ks =>
    by_cases h61 : ks.length < 61
    · simp [breakoutEntry, breakdownEntry, gainEntry, lossEntry, h61]
    · by_cases hbo : ma60 ks < latestClose ks ∧ previousClose ks ≤ ma60 ks
      · simp [breakoutEntry, breakdownEntry, gainEntry, lossEntry, h61, hbo]
      · by_cases hbd : latestClose ks < ma60 ks ∧ ma60 ks ≤ previousClose ks
        · simp [breakoutEntry, breakdownEntry, gainEntry, lossEntry, h61, hbo, hbd]
        · cases hf : findAsset st s with
          | none => simp [breakoutEntry, breakdownEntry, gainEntry, lossEntry,
              h61, hbo, hbd, hf]
          | some a =>
            by_cases hg : a.status = "breakout" ∧ ma60 ks < latestClose ks
            · have hl : ¬ (a.status = "breakdown" ∧ latestClose ks < ma60 ks) :=
                fun h => absurd (hg.1.symm.trans h.1) (by decide)
              simp [breakoutEntry, breakdownEntry, gainEntry, lossEntry,
                h61, hbo, hbd, hf, hg, hl]
            · simp [breakoutEntry, breakdownEntry, gainEntry, lossEntry,
                h61, hbo, hbd, hf, hg]

/-- C6: over a whole pass, each of the four output lists is exactly the
symbols' contributions of one classification — so a newly crossing symbol
appears only in its daily list, and for each symbol the four
classifications are mutually exclusive (pairwise-disjoint lists per
symbol). -/
theorem C6_disjoint_lists (today : String) (fetch : String → Option (List Kline))
    (st : StateMap) (symbols : List String) :
    (trackAndAnalyze today fetch (some symbols) st).dailyBreakouts
        = symbols.filterMap (fun s => breakoutEntry (fetch s) s) ∧
    (trackAndAnalyze today fetch (some symbols) st).dailyBreakdowns
        = symbols.filterMap (fun s => breakdownEntry (fetch s) s) ∧
    (trackAndAnalyze today fetch (some symbols) st).trackedGains
        = symbols.filterMap (fun s => gainEntry st (fetch s) s) ∧
    (trackAndAnalyze today fetch (some symbols) st).trackedLosses
        = symbols.filterMap (fun s => lossEntry st (fetch s) s) ∧
    ∀ s, ((breakoutEntry (fetch s) s).isSome →
            breakdownEntry (fetch s) s = none ∧ gainEntry st (fetch s) s = none ∧
              lossEntry st (fetch s) s = none) ∧
         ((breakdownEntry (fetch s) s).isSome →
            gainEntry st (fetch s) s = none ∧ lossEntry st (fetch s) s = none) ∧
         ((gainEntry st (fetch s) s).isSome → lossEntry st (fetch s) s = none) := by
  obtain ⟨h1, h2, h3, h4⟩ :=
    foldl_lists today fetch st symbols ⟨[], [], [], [], st⟩ (fun t _ => rfl)
  exact ⟨by simpa using h1, by simpa using h2, by simpa using h3, by simpa using h4,
    fun s => entriesExclusive st (fetch s) s⟩

/-- Witness for C6: one fresh-breakout symbol lands in the daily-breakout
list characterization. -/
theorem C6_disjoint_lists_witness :
    (trackAndAnalyze "2026-01-02" fetchUp (some ["AUSDT"]) []).dailyBreakouts
      = List.filterMap (fun s => breakoutEntry (fetchUp s) s) ["AUSDT"] :=
  (C6_disjoint_lists "2026-01-02" fetchUp [] ["AUSDT"]).1

/-- Counterexample to C3 as stated: a symbol already tracked as a breakout
is overwritten by a new breakout event of the same direction (its
yesterday close sat exactly on MA60), not by an opposite crossing — the
entry changes although no breakdown occurred. -/
theorem C3_counterexample :
    findAsset stSameDir "SUSDT" = some ⟨"SUSDT", "breakout", 1, "2026-01-01"⟩ ∧
    (ma60 ksUp < latestClose ksUp ∧ previousClose ksUp ≤ ma60 ksUp) ∧
    ¬ latestClose ksUp < ma60 ksUp ∧
    findAsset (processSymbol "2026-03-03" (some ksUp) "SUSDT" accSameDir).trackedAssets
        "SUSDT"
      = some ⟨"SUSDT", "breakout", 2, "2026-03-03"⟩ := by
  refine ⟨by decide, by with_unfolding_all decide, by with_unfolding_all decide,
    by with_unfolding_all decide⟩

/-- C3 (amended): a state entry is never deleted by a pass; an entry is
modified only when its symbol experiences a new crossing event — that is,
if every fetch of the symbol is failed, short, or satisfies neither the
breakout condition (previousClose ≤ MA60 < latestClose) nor the breakdown
condition (previousClose ≥ MA60 > latestClose), the entry is left exactly
as loaded — and when an entry does change it has been overwritten with the
new event's record: the direction whose crossing condition holds,
eventPrice = latestClose, eventDate = today.  (As stated the claim is
false: a same-direction re-crossing also overwrites, see the
counterexample.) -/
theorem C3_state_persistence (today : String) (fetch : String → Option (List Kline))
    (symbolsRes : Option (List String)) (st : StateMap) :
    (∀ t, (findAsset st t).isSome →
      (findAsset (trackAndAnalyze today fetch symbolsRes st).trackedAssets t).isSome) ∧
    (∀ t, (∀ ks, fetch t = some ks → ks.length < 61 ∨
          (¬ (ma60 ks < latestClose ks ∧ previousClose ks ≤ ma60 ks) ∧
           ¬ (latestClose ks < ma60 ks ∧ ma60 ks ≤ previousClose ks))) →
      findAsset (trackAndAnalyze today fetch symbolsRes st).trackedAssets t
        = findAsset st t) ∧
    (∀ t, findAsset (trackAndAnalyze today fetch symbolsRes st).trackedAssets t
        = findAsset st t ∨
      (∃ ks, fetch t = some ks ∧ ¬ ks.length < 61 ∧
        ((ma60 ks < latestClose ks ∧ previousClose ks ≤ ma60 ks ∧
          findAsset (trackAndAnalyze today fetch symbolsRes st).trackedAssets t
            = some ⟨t, "breakout", latestClose ks, today⟩) ∨
         (latestClose ks < ma60 ks ∧ ma60 ks ≤ previousClose ks ∧
          findAsset (trackAndAnalyze today fetch symbolsRes st).trackedAssets t
            = some ⟨t, "breakdown", latestClose ks, today⟩)))) := by
  cases symbolsRes with
  | none => exact ⟨fun t h => h, fun t _ => rfl, fun t => Or.inl rfl⟩
  | some symbols =>
    refine ⟨?_, ?_, ?_⟩
    · intro t hsome
      rcases foldl_state_find today fetch symbols ⟨[], [], [], [], st⟩ t with
        h | ⟨ks, hks, h61, ⟨hc1, hc2, h⟩ | ⟨hc1, hc2, h⟩⟩
      · show (findAsset (List.foldl (analyzeStep today fetch)
            ⟨[], [], [], [], st⟩ symbols).trackedAssets t).isSome
        rw [h]
        exact hsome
      · show (findAsset (List.foldl (analyzeStep today fetch)
            ⟨[], [], [], [], st⟩ symbols).trackedAssets t).isSome
        rw [h]
        rfl
      · show (findAsset (List.foldl (analyzeStep today fetch)
            ⟨[], [], [], [], st⟩ symbols).trackedAssets t).isSome
        rw [h]
        rfl
    · intro t hno
      have hne : ¬ hasNewEvent (fetch t) := by
        cases hft : fetch t with
        | none => simp [hasNewEvent]
        | some ks =>
          intro hn
          have hn2 : ¬ ks.length < 61 ∧
              ((ma60 ks < latestClose ks ∧ previousClose ks ≤ ma60 ks) ∨
               (latestClose ks < ma60 ks ∧ ma60 ks ≤ previousClose ks)) := hn
          rcases hno ks hft with hlt | ⟨hnbo, hnbd⟩
          · exact hn2.1 hlt
          · rcases hn2.2 with hbo | hbd
            · exact hnbo hbo
            · exact hnbd hbd
      exact foldl_state_frame today fetch symbols ⟨[], [], [], [], st⟩ t hne
    · intro t
      exact foldl_state_find today fetch symbols ⟨[], [], [], [], st⟩ t

/-- Witness for C3: a tracked entry of an unrelated symbol survives a pass,
and a processed symbol whose 61 candles produce no crossing (latest close
exactly at MA60) keeps its loaded entry unchanged. -/
theorem C3_state_persistence_witness :
    (findAsset (trackAndAnalyze "2026-01-02" fetchUp (some ["AUSDT"])
        stSameDir).trackedAssets "SUSDT").isSome ∧
    findAsset (trackAndAnalyze "2026-01-02" fetchFlat (some ["SUSDT"])
        stSameDir).trackedAssets "SUSDT"
      = findAsset stSameDir "SUSDT" := by
  constructor
  · exact (C3_state_persistence "2026-01-02" fetchUp (some ["AUSDT"]) stSameDir).1
      "SUSDT" (by decide)
  · refine (C3_state_persistence "2026-01-02" fetchFlat (some ["SUSDT"]) stSameDir).2.1
      "SUSDT" ?_
    intro ks h
    simp only [fetchFlat, Option.some.injEq] at h
    subst h
    right
    exact ⟨by with_unfolding_all decide, by with_unfolding_all decide⟩

/-- Counterexample to C9 as stated: with 60 closes at 1 and a latest close
whose string fails to parse, the source records a breakdown entry whose
eventPrice is 0, which is not strictly positive. -/
theorem C9_counterexample :
    (findAsset (processSymbol "2026-02-02" (some ksBadParse) "XUSDT"
        ⟨[], [], [], [], []⟩).trackedAssets "XUSDT").map TrackedAsset.eventPrice
      = some 0 ∧
    ¬ (0 : ℚ) < 0 := by
  exact ⟨by with_unfolding_all decide, lt_irrefl 0⟩

/-- C9 (amended): an entry written during a pass always carries
eventPrice = latestClose of that symbol's candles, so whenever every
fetched latest close is strictly positive, every entry in the final map is
either the unchanged loaded entry or has eventPrice > 0.  (As stated the
claim is false for closes that are 0 or fail to parse, see the
counterexample.) -/
theorem C9_eventPrice_positive (today : String) (fetch : String → Option (List Kline))
    (symbolsRes : Option (List String)) (st : StateMap)
    (hpos : ∀ s ks, fetch s = some ks → 0 < latestClose ks) :
    ∀ t a, findAsset (trackAndAnalyze today fetch symbolsRes st).trackedAssets t = some a →
      findAsset st t = some a ∨ 0 < a.eventPrice := by
  intro t a ha
  cases symbolsRes with
  | none => exact Or.inl ha
  | some symbols =>
    rcases foldl_state_find today fetch symbols ⟨[], [], [], [], st⟩ t with
      h | ⟨ks, hks, h61, ⟨hc1, hc2, h⟩ | ⟨hc1, hc2, h⟩⟩
    · exact Or.inl (h.symm.trans ha)
    · right
      have hae : a = ⟨t, "breakout", latestClose ks, today⟩ :=
        (Option.some.inj (h.symm.trans ha)).symm
      rw [hae]
      exact hpos t ks hks
    · right
      have hae : a = ⟨t, "breakdown", latestClose ks, today⟩ :=
        (Option.some.inj (h.symm.trans ha)).symm
      rw [hae]
      exact hpos t ks hks

/-- Witness for C9: with every latest close positive, the freshly written
breakout entry has a positive eventPrice. -/
theorem C9_eventPrice_positive_witness :
    findAsset ([] : StateMap) "AUSDT" = some ⟨"AUSDT", "breakout", 2, "2026-01-02"⟩ ∨
    (0 : ℚ) < (TrackedAsset.mk "AUSDT" "breakout" 2 "2026-01-02").eventPrice :=
  C9_eventPrice_positive "2026-01-02" fetchUp (some ["AUSDT"]) []
    (by
      intro s ks h
      simp only [fetchUp, Option.some.injEq] at h
      subst h
      with_unfolding_all decide)
    "AUSDT" ⟨"AUSDT", "breakout", 2, "2026-01-02"⟩ (by with_unfolding_all decide)
